import Mathlib

/-!
Shallow embedding of the go-pool object pool (pool.go and itemwrap.go).

Items handed out by the pool's factory are identified by natural-number ids
0, 1, 2, ... in order of factory invocation, so `nextItemId` doubles as the
count of factory calls.  The Go `sync.Pool` fields are modelled as explicit
lists (`syncPoolItems` for the item free-list, `itemWrapPoolItems` for the
wrapper free-list); Go's uint32 counters are naturals with explicit wrap at
2^32; the weighted semaphore is modelled by its remaining permits
(an integer, since a bare negative int max is accepted by the constructor).
-/

namespace GoPool

/-- Size of Go's uint32 value space. -/
def u32 : Nat := 4294967296

/-- Wrapping uint32 increment, as performed by atomic.AddUint32 with 1. -/
def incU32 (n : Nat) : Nat := (n + 1) % u32

/-- Wrapping uint32 decrement, as performed by atomic.AddUint32 with the
all-ones mask. -/
def decU32 (n : Nat) : Nat := (n + (u32 - 1)) % u32

/-- Embedding of itemwrap.go's itemWrap struct: `item` is the id of the
payload, `invalid` the caller-set flag, `hasPool` whether the back reference
to the owning pool is set. -/
structure ItemWrap where
  item : Nat
  invalid : Bool
  hasPool : Bool
deriving Repr, DecidableEq

/-- The zero value produced by the wrapper free-list's New function. -/
def ItemWrap.new : ItemWrap := ⟨0, false, false⟩

/-- itemwrap.go reset: restores the wrapper to the zero value. -/
def ItemWrap.reset (_iw : ItemWrap) : ItemWrap := ⟨0, false, false⟩

/-- itemwrap.go MarkAsInvalid: sets the invalid flag, nothing else. -/
def ItemWrap.markAsInvalid (iw : ItemWrap) : ItemWrap := { iw with invalid := true }

/-- Embedding of the Pool struct's mutable state. -/
structure PoolState where
  semMax : Option Int
  semAvail : Int
  enableCount : Bool
  count : Nat
  countBorrowedOut : Nat
  syncPoolItems : List Nat
  itemWrapPoolItems : List ItemWrap
  nextItemId : Nat
deriving Repr, DecidableEq

/-- Embedding of a Go context as far as the semaphore acquire observes it:
the background context, or a cancellable context that may have been
cancelled. -/
inductive GoContext
  | background
  | withCancel (cancelled : Bool)
deriving Repr, DecidableEq

/-- Whether the context supports being cancelled at all. -/
def GoContext.isCancellable : GoContext → Bool
  | .background => false
  | .withCancel _ => true

/-- Whether the context has been cancelled. -/
def GoContext.isCancelled : GoContext → Bool
  | .background => false
  | .withCancel c => c

/-- The context that borrow passes to the semaphore acquire call: pool.go
hard-codes context.Background(). -/
def borrowAcquireContext : GoContext := .background

/-- Result of semaphore.Weighted.Acquire with weight 1: a permit was taken,
the caller must block, or the context's error was returned. -/
inductive AcquireOutcome
  | acquired (avail : Int)
  | blocked
  | ctxErr
deriving Repr, DecidableEq

/-- semaphore.Weighted.Acquire(ctx, 1): the fast path takes a free permit;
otherwise a cancelled context yields its error, and a live context blocks. -/
def weightedAcquire (ctx : GoContext) (avail : Int) : AcquireOutcome :=
  if 1 ≤ avail then .acquired (avail - 1)
  else if ctx.isCancelled then .ctxErr
  else .blocked

/-- First step of borrow: acquire a permit from semMax when the gate is
present.  `none` models the caller staying blocked.  The error return of
Acquire is discarded by borrow, so on a context error execution would
continue without a permit. -/
def acquirePermit (s : PoolState) : Option PoolState :=
  match s.semMax with
  | none => some s
  | some _ =>
    match weightedAcquire borrowAcquireContext s.semAvail with
    | .acquired a => some { s with semAvail := a }
    | .blocked => none
    | .ctxErr => some s

/-- Second step of borrow: increment countBorrowedOut when counting is on. -/
def incBorrowed (s : PoolState) : PoolState :=
  if s.enableCount then { s with countBorrowedOut := incU32 s.countBorrowedOut } else s

/-- Third step of borrow: itemWrapPool.Get(), popping a recycled wrapper or
allocating the zero value. -/
def getWrap (s : PoolState) : PoolState × ItemWrap :=
  match s.itemWrapPoolItems with
  | iw :: rest => ({ s with itemWrapPoolItems := rest }, iw)
  | [] => (s, ItemWrap.new)

/-- The syncPool.New closure installed by New: runs the factory (producing
the next fresh item id) and, when counting is on, increments the live count
and registers the finalizer. -/
def syncPoolNew (s : PoolState) : PoolState × Nat :=
  ({ s with nextItemId := s.nextItemId + 1,
            count := if s.enableCount then incU32 s.count else s.count },
   s.nextItemId)

/-- Fourth step of borrow: syncPool.Get(), popping a free item or invoking
the factory through syncPool.New. -/
def getItem (s : PoolState) : PoolState × Nat :=
  match s.syncPoolItems with
  | x :: rest => ({ s with syncPoolItems := rest }, x)
  | [] => syncPoolNew s

/-- pool.go borrow: acquire a permit, bump the borrowed counter, take a
wrapper, take an item, then set the wrapper's item and pool fields.  `none`
models the caller blocked on the admission gate. -/
def borrow (s : PoolState) : Option (PoolState × ItemWrap) :=
  match acquirePermit s with
  | none => none
  | some s1 =>
    let s2 := incBorrowed s1
    let p3 := getWrap s2
    let p4 := getItem p3.1
    some (p4.1, { p3.2 with item := p4.2, hasPool := true })

/-- pool.go borrow in the scenario where the factory panics if invoked: the
permit acquisition, borrowed-counter increment and wrapper pop happen first;
when the item free-list is empty the factory runs inside syncPool.Get and
panics before the live count is touched, and the error carries the pool
state left behind as the panic propagates out of Borrow.  There is no
recover, release or rollback on this path.  `none` still models blocking on
the gate. -/
def borrowFactoryPanics (s : PoolState) : Option (Except PoolState (PoolState × ItemWrap)) :=
  match acquirePermit s with
  | none => none
  | some s1 =>
    let s2 := incBorrowed s1
    let p3 := getWrap s2
    match p3.1.syncPoolItems with
    | x :: rest =>
      some (.ok ({ p3.1 with syncPoolItems := rest },
        { p3.2 with item := x, hasPool := true }))
    | [] => some (.error p3.1)

/-- pool.go returnItem: put the item back on the item free-list unless the
wrapper is invalid, reset the wrapper and recycle it, decrement the borrowed
counter when counting is on, and release one permit when the gate is
present. -/
def returnItem (s : PoolState) (iw : ItemWrap) : PoolState :=
  let s1 := if iw.invalid then s
            else { s with syncPoolItems := iw.item :: s.syncPoolItems }
  let s2 := { s1 with itemWrapPoolItems := iw.reset :: s1.itemWrapPoolItems }
  let s3 := if s2.enableCount
            then { s2 with countBorrowedOut := decU32 s2.countBorrowedOut } else s2
  match s3.semMax with
  | some _ => { s3 with semAvail := s3.semAvail + 1 }
  | none => s3

/-- pool.go Count: 0 when counting is off, otherwise the live count minus the
borrowed count, floored at zero. -/
def Count (s : PoolState) : Nat :=
  if !s.enableCount then 0
  else if s.countBorrowedOut < s.count then s.count - s.countBorrowedOut
  else 0

/-- pool.go OnLoan: 0 when counting is off, otherwise countBorrowedOut. -/
def OnLoan (s : PoolState) : Nat :=
  if !s.enableCount then 0 else s.countBorrowedOut

/-- The variadic opts argument of New: absent, one of the accepted integer
kinds carrying the max, an Options struct, or a value of any other type. -/
inductive PoolOpts
  | noOpts
  | intMax (m : Int)
  | uint32Max (m : Nat)
  | int64Max (m : Int)
  | optionsCfg (initial : Nat) (max : Nat) (enableCount : Bool)
  | otherType
deriving Repr, DecidableEq

/-- The two panics New can raise while processing opts. -/
inductive ConfigError
  | initialExceedsMax
  | optsWrongType
deriving Repr, DecidableEq

/-- Result of New's opts processing: gate weight, pending initial count, and
the counting flag. -/
structure PoolConfig where
  semMax : Option Int
  initial : Option Nat
  enableCount : Bool
deriving Repr, DecidableEq

/-- The opts switch of pool.go New: integer kinds install a gate of that
weight unconditionally; an Options value installs a gate only when Max is
nonzero (panicking when Initial exceeds a nonzero Max), records a nonzero
Initial, and copies EnableCount; anything else panics. -/
def newConfig : PoolOpts → Except ConfigError PoolConfig
  | .noOpts => .ok ⟨none, none, false⟩
  | .intMax m => .ok ⟨some m, none, false⟩
  | .uint32Max m => .ok ⟨some (m : Int), none, false⟩
  | .int64Max m => .ok ⟨some m, none, false⟩
  | .optionsCfg i m ec =>
    if m ≠ 0 then
      if i > m then .error .initialExceedsMax
      else .ok ⟨some (m : Int), if i > 0 then some i else none, ec⟩
    else .ok ⟨none, if i > 0 then some i else none, ec⟩
  | .otherType => .error .optsWrongType

/-- The pool state right after the opts switch, before the pre-warm loop:
empty free-lists, zero counters, all permits free. -/
def initState (c : PoolConfig) : PoolState :=
  { semMax := c.semMax
    semAvail := c.semMax.getD 0
    enableCount := c.enableCount
    count := 0
    countBorrowedOut := 0
    syncPoolItems := []
    itemWrapPoolItems := []
    nextItemId := 0 }

/-- The first pre-warm loop of New: borrow k items, collecting the wrappers
in acquisition order.  `none` models the constructor blocking forever on the
gate. -/
def prewarmBorrow : Nat → PoolState → Option (PoolState × List ItemWrap)
  | 0, s => some (s, [])
  | k + 1, s =>
    match borrow s with
    | none => none
    | some p =>
      match prewarmBorrow k p.1 with
      | none => none
      | some q => some (q.1, p.2 :: q.2)

/-- The second pre-warm loop of New: return the collected wrappers in
reverse acquisition order (index len-1 down to 0). -/
def returnItemsRev (s : PoolState) : List ItemWrap → PoolState
  | [] => s
  | iw :: rest => returnItem (returnItemsRev s rest) iw

/-- The tail of pool.go New after the opts switch: run the pre-warm loops
when an initial count was recorded. -/
def mkPool (c : PoolConfig) : Option PoolState :=
  match c.initial with
  | none => some (initState c)
  | some k =>
    match prewarmBorrow k (initState c) with
    | none => none
    | some p => some (returnItemsRev p.1 p.2)

/-- pool.go New end to end: process opts, then build the pool state. -/
def newPool (o : PoolOpts) : Except ConfigError (Option PoolState) :=
  (newConfig o).map mkPool

/-- Events callers can perform on a pool: Borrow, MarkAsInvalid on the i-th
outstanding handle, Return of the i-th outstanding handle. -/
inductive Event
  | borrowEv
  | markInvalidEv (i : Nat)
  | returnEv (i : Nat)
deriving Repr, DecidableEq

/-- A pool together with the handles currently held by callers (in order of
acquisition). -/
structure World where
  pool : PoolState
  loaned : List ItemWrap
deriving Repr, DecidableEq

/-- One caller action, also reporting the handles handed out by the action
(one for a completed Borrow, none otherwise).  `none` models a blocked
Borrow or a reference to a handle the caller does not hold. -/
def stepT (w : World) : Event → Option (World × List ItemWrap)
  | .borrowEv =>
    match borrow w.pool with
    | none => none
    | some p => some (⟨p.1, w.loaned ++ [p.2]⟩, [p.2])
  | .markInvalidEv i =>
    if h : i < w.loaned.length then
      some (⟨w.pool, w.loaned.set i (w.loaned[i].markAsInvalid)⟩, [])
    else none
  | .returnEv i =>
    if h : i < w.loaned.length then
      some (⟨returnItem w.pool (w.loaned[i]), w.loaned.eraseIdx i⟩, [])
    else none

/-- One caller action, without the hand-out report. -/
def step (w : World) (e : Event) : Option World := (stepT w e).map Prod.fst

/-- Run a sequence of caller actions, collecting every handle handed out by
a Borrow along the way. -/
def runT (w : World) : List Event → Option (World × List ItemWrap)
  | [] => some (w, [])
  | e :: es =>
    match stepT w e with
    | none => none
    | some p =>
      match runT p.1 es with
      | none => none
      | some q => some (q.1, p.2 ++ q.2)

/-- Run a sequence of caller actions. -/
def run (w : World) (evs : List Event) : Option World := (runT w evs).map Prod.fst

/-- The item ids a later Borrow could ever hand out from world w: ids on the
item free-list, ids inside outstanding handles (they can be returned and
reused), and ids the factory has not produced yet. -/
def itemAvailable (w : World) (x : Nat) : Prop :=
  x ∈ w.pool.syncPoolItems ∨ x ∈ w.loaned.map ItemWrap.item ∨ w.pool.nextItemId ≤ x

instance (w : World) (x : Nat) : Decidable (itemAvailable w x) := by
  unfold itemAvailable; infer_instance

/-- The items recorded in the pool's free-list and in outstanding handles. -/
def liveItems (w : World) : List Nat :=
  w.pool.syncPoolItems ++ w.loaned.map ItemWrap.item

/-- The state invariant maintained by every caller action: recycled wrappers
are reset, live item ids are pairwise distinct and below the next fresh id,
and when the gate is present its free permits plus the outstanding handles
equal the configured weight, with no permit debt. -/
def GoodWorld (w : World) : Prop :=
  (∀ iw ∈ w.pool.itemWrapPoolItems, iw.invalid = false) ∧
  (liveItems w).Nodup ∧
  (∀ x ∈ liveItems w, x < w.pool.nextItemId) ∧
  (w.pool.semMax = none ∨
    (w.pool.semMax = some (w.pool.semAvail + w.loaned.length) ∧ 0 ≤ w.pool.semAvail))

instance (w : World) : Decidable (GoodWorld w) := by
  unfold GoodWorld liveItems; infer_instance

/-! List helper lemmas. -/

theorem map_eraseIdx {α β : Type} (f : α → β) :
    ∀ (l : List α) (i : Nat), (l.eraseIdx i).map f = (l.map f).eraseIdx i
  | [], _ => by simp
  | _ :: _, 0 => by simp [List.eraseIdx]
  | a :: t, i + 1 => by
    simp only [List.eraseIdx, List.map_cons]
    rw [map_eraseIdx f t i]

theorem perm_cons_eraseIdx {α : Type} :
    ∀ (l : List α) (i : Nat) (h : i < l.length), l.Perm (l[i] :: l.eraseIdx i)
  | a :: t, 0, _ => by simp [List.eraseIdx]
  | a :: t, i + 1, h => by
    have ht : i < t.length := by simpa using h
    have h1 : t.Perm (t[i] :: t.eraseIdx i) := perm_cons_eraseIdx t i ht
    have h2 : (a :: t).Perm (a :: t[i] :: t.eraseIdx i) := h1.cons a
    have h3 : (a :: t[i] :: t.eraseIdx i).Perm (t[i] :: a :: t.eraseIdx i) :=
      List.Perm.swap _ _ _
    simpa [List.eraseIdx] using h2.trans h3

theorem set_getElem_self {α : Type} :
    ∀ (l : List α) (i : Nat) (h : i < l.length), l.set i l[i] = l
  | _ :: _, 0, _ => by simp
  | a :: t, i + 1, h => by
    have ht : i < t.length := by simpa using h
    simp [set_getElem_self t i ht]

/-! Characterizations of the micro-steps of borrow and of returnItem. -/

theorem acquirePermit_some {s s1 : PoolState} (h : acquirePermit s = some s1) :
    (s.semMax = none ∧ s1 = s) ∨
    (∃ M, s.semMax = some M ∧ 1 ≤ s.semAvail ∧
      s1 = { s with semAvail := s.semAvail - 1 }) := by
  unfold acquirePermit at h
  cases hm : s.semMax with
  | none => rw [hm] at h; exact Or.inl ⟨rfl, (Option.some_inj.mp h).symm⟩
  | some M =>
    rw [hm] at h
    unfold weightedAcquire at h
    by_cases ha : 1 ≤ s.semAvail
    · rw [if_pos ha] at h
      exact Or.inr ⟨M, rfl, ha, (Option.some_inj.mp h).symm⟩
    · rw [if_neg ha] at h
      simp [borrowAcquireContext, GoContext.isCancelled] at h

theorem acquirePermit_blocked {s : PoolState} {M : Int} (hm : s.semMax = some M)
    (ha : s.semAvail < 1) : acquirePermit s = none := by
  unfold acquirePermit weightedAcquire
  rw [hm, if_neg (by omega)]
  simp [borrowAcquireContext, GoContext.isCancelled]

theorem acquirePermit_noGate {s : PoolState} (hm : s.semMax = none) :
    acquirePermit s = some s := by
  unfold acquirePermit; rw [hm]

theorem incBorrowed_fields (s : PoolState) :
    incBorrowed s = { s with countBorrowedOut :=
      if s.enableCount then incU32 s.countBorrowedOut else s.countBorrowedOut } := by
  unfold incBorrowed
  split
  · rfl
  · rfl

theorem getWrap_spec (s : PoolState) :
    (s.itemWrapPoolItems = [] ∧ getWrap s = (s, ItemWrap.new)) ∨
    (∃ iw rest, s.itemWrapPoolItems = iw :: rest ∧
      getWrap s = ({ s with itemWrapPoolItems := rest }, iw)) := by
  unfold getWrap
  cases h : s.itemWrapPoolItems with
  | nil => exact Or.inl ⟨rfl, rfl⟩
  | cons iw rest => exact Or.inr ⟨iw, rest, rfl, rfl⟩

theorem getItem_spec (s : PoolState) :
    (s.syncPoolItems = [] ∧
      getItem s =
        ({ s with
            nextItemId := s.nextItemId + 1
            count := if s.enableCount then incU32 s.count else s.count },
          s.nextItemId)) ∨
    (∃ x rest, s.syncPoolItems = x :: rest ∧
      getItem s = ({ s with syncPoolItems := rest }, x)) := by
  unfold getItem syncPoolNew
  cases h : s.syncPoolItems with
  | nil => exact Or.inl ⟨rfl, rfl⟩
  | cons x rest => exact Or.inr ⟨x, rest, rfl, rfl⟩

theorem borrow_eq_some {s s' : PoolState} {iw : ItemWrap}
    (h : borrow s = some (s', iw)) :
    ∃ s1, acquirePermit s = some s1 ∧
      s' = (getItem (getWrap (incBorrowed s1)).1).1 ∧
      iw = { (getWrap (incBorrowed s1)).2 with
             item := (getItem (getWrap (incBorrowed s1)).1).2, hasPool := true } := by
  unfold borrow at h
  cases ha : acquirePermit s with
  | none => rw [ha] at h; exact absurd h (by simp)
  | some s1 =>
    rw [ha] at h
    simp only [Option.some_inj, Prod.mk.injEq] at h
    exact ⟨s1, rfl, h.1.symm, h.2.symm⟩

theorem borrow_some_of_acquire {s s1 : PoolState} (ha : acquirePermit s = some s1) :
    borrow s = some ((getItem (getWrap (incBorrowed s1)).1).1,
      { (getWrap (incBorrowed s1)).2 with
        item := (getItem (getWrap (incBorrowed s1)).1).2, hasPool := true }) := by
  unfold borrow
  rw [ha]

theorem borrow_none_iff {s : PoolState} : borrow s = none ↔ acquirePermit s = none := by
  unfold borrow
  cases ha : acquirePermit s <;> simp

theorem returnItem_spec (s : PoolState) (iw : ItemWrap) :
    returnItem s iw =
      { s with
        syncPoolItems :=
          if iw.invalid then s.syncPoolItems else iw.item :: s.syncPoolItems,
        itemWrapPoolItems := iw.reset :: s.itemWrapPoolItems,
        countBorrowedOut :=
          if s.enableCount then decU32 s.countBorrowedOut else s.countBorrowedOut,
        semAvail := if s.semMax = none then s.semAvail else s.semAvail + 1 } := by
  unfold returnItem
  cases hi : iw.invalid <;> cases he : s.enableCount <;> cases hm : s.semMax <;>
    simp [hi, he, hm]

/-- Field-level description of a completed borrow: the gate and counting
configuration are untouched, the wrapper comes from the wrapper free-list or
is fresh, the item is the head of the item free-list or the next fresh id,
and a permit is consumed exactly when the gate is present. -/
theorem borrow_fields {s s' : PoolState} {iw : ItemWrap}
    (h : borrow s = some (s', iw)) :
    s'.semMax = s.semMax ∧
    s'.enableCount = s.enableCount ∧
    (∀ x ∈ s'.itemWrapPoolItems, x ∈ s.itemWrapPoolItems) ∧
    (iw.invalid = true → ∃ x ∈ s.itemWrapPoolItems, x.invalid = true) ∧
    iw.hasPool = true ∧
    ((∃ rest, s.syncPoolItems = iw.item :: rest ∧ s'.syncPoolItems = rest ∧
        s'.nextItemId = s.nextItemId) ∨
      (s.syncPoolItems = [] ∧ s'.syncPoolItems = [] ∧ iw.item = s.nextItemId ∧
        s'.nextItemId = s.nextItemId + 1)) ∧
    (s.semMax = none → s'.semAvail = s.semAvail) ∧
    (∀ M, s.semMax = some M → 1 ≤ s.semAvail ∧ s'.semAvail = s.semAvail - 1) := by
  obtain ⟨s1, ha, hs', hiw⟩ := borrow_eq_some h
  have hinc := incBorrowed_fields s1
  rcases acquirePermit_some ha with ⟨hm, rfl⟩ | ⟨M, hm, hav, hs1⟩ <;>
  [skip; subst hs1] <;>
  · rw [hinc] at hs' hiw
    rcases getWrap_spec _ with ⟨hw0, hw1⟩ | ⟨iw0, rest0, hw0, hw1⟩ <;>
    · rw [hw1] at hs' hiw
      rcases getItem_spec _ with ⟨hi0, hi1⟩ | ⟨x0, rest1, hi0, hi1⟩ <;>
      · rw [hi1] at hs' hiw
        subst hs' hiw
        simp_all [ItemWrap.new]
        try omega

/-! Inversion lemmas for the caller actions. -/

theorem stepT_borrow_inv {w w' : World} {outs : List ItemWrap}
    (h : stepT w .borrowEv = some (w', outs)) :
    ∃ p, borrow w.pool = some p ∧ w' = ⟨p.1, w.loaned ++ [p.2]⟩ ∧ outs = [p.2] := by
  simp only [stepT] at h
  cases hb : borrow w.pool with
  | none => rw [hb] at h; cases h
  | some p =>
    rw [hb] at h
    simp only [Option.some_inj] at h
    cases h
    exact ⟨p, rfl, rfl, rfl⟩

theorem stepT_markInvalid_inv {w w' : World} {outs : List ItemWrap} {i : Nat}
    (h : stepT w (.markInvalidEv i) = some (w', outs)) :
    ∃ hlt : i < w.loaned.length,
      w' = ⟨w.pool, w.loaned.set i (w.loaned[i].markAsInvalid)⟩ ∧ outs = [] := by
  simp only [stepT] at h
  split at h
  · next hlt =>
    simp only [Option.some_inj] at h
    cases h
    exact ⟨hlt, rfl, rfl⟩
  · cases h

theorem stepT_return_inv {w w' : World} {outs : List ItemWrap} {i : Nat}
    (h : stepT w (.returnEv i) = some (w', outs)) :
    ∃ hlt : i < w.loaned.length,
      w' = ⟨returnItem w.pool (w.loaned[i]), w.loaned.eraseIdx i⟩ ∧ outs = [] := by
  simp only [stepT] at h
  split at h
  · next hlt =>
    simp only [Option.some_inj] at h
    cases h
    exact ⟨hlt, rfl, rfl⟩
  · cases h

/-! Preservation of the state invariant by each caller action. -/

theorem good_borrow {w w' : World} {outs : List ItemWrap} (hg : GoodWorld w)
    (h : stepT w .borrowEv = some (w', outs)) : GoodWorld w' := by
  obtain ⟨hwr, hnd, hbd, hgate⟩ := hg
  obtain ⟨p, hb, rfl, rfl⟩ := stepT_borrow_inv h
  obtain ⟨hsm, hec, hwsub, hwinv, hhp, hitem, hg0, hg1⟩ :=
    borrow_fields (show borrow w.pool = some (p.1, p.2) by rw [hb])
  unfold GoodWorld
  unfold liveItems at hnd hbd ⊢
  dsimp only at hnd hbd ⊢
  simp only [List.map_append, List.map_cons, List.map_nil]
  refine ⟨fun x hx => hwr x (hwsub x hx), ?_, ?_, ?_⟩
  · rcases hitem with ⟨rest, hF, hF', _⟩ | ⟨hF, hF', hfresh, _⟩
    · rw [hF']
      rw [hF] at hnd
      rw [← List.append_assoc]
      exact (List.perm_append_singleton _ _).symm.nodup (by simpa using hnd)
    · rw [hF']
      rw [hF] at hnd
      rw [hfresh]
      simp only [List.nil_append] at hnd ⊢
      rw [List.nodup_append]
      refine ⟨hnd, List.nodup_singleton _, ?_⟩
      intro a ha hmem
      have ha' : a < w.pool.nextItemId := hbd a (by rw [hF]; simpa using ha)
      simp only [List.mem_singleton] at hmem
      omega
  · intro x hx
    rcases hitem with ⟨rest, hF, hF', hn⟩ | ⟨hF, hF', hfresh, hn⟩
    · rw [hn]
      rw [hF'] at hx
      simp only [List.mem_append, List.mem_singleton] at hx
      rcases hx with hx | hx | rfl
      · exact hbd x (by rw [hF]; simp [hx])
      · exact hbd x (by simp [hx])
      · exact hbd _ (by rw [hF]; simp)
    · rw [hn]
      rw [hF'] at hx
      simp only [List.mem_append, List.mem_singleton, List.not_mem_nil] at hx
      rcases hx with hx | hx | rfl
      · cases hx
      · have := hbd x (by simp [hx]); omega
      · omega
  · rcases hgate with hnone | ⟨hsome, hpos⟩
    · exact Or.inl (by rw [hsm, hnone])
    · obtain ⟨hav, hav'⟩ := hg1 _ hsome
      refine Or.inr ⟨?_, ?_⟩
      · rw [hsm, hsome, hav']
        simp only [List.length_append, List.length_cons, List.length_nil]
        apply congrArg
        push_cast
        ring
      · rw [hav']; omega

theorem good_markInvalid {w w' : World} {outs : List ItemWrap} {i : Nat}
    (hg : GoodWorld w) (h : stepT w (.markInvalidEv i) = some (w', outs)) :
    GoodWorld w' := by
  obtain ⟨hwr, hnd, hbd, hgate⟩ := hg
  obtain ⟨hlt, rfl, rfl⟩ := stepT_markInvalid_inv h
  have hmap : (w.loaned.set i (w.loaned[i].markAsInvalid)).map ItemWrap.item =
      w.loaned.map ItemWrap.item := by
    rw [List.map_set]
    have hlt' : i < (w.loaned.map ItemWrap.item).length := by simpa using hlt
    have hval : ItemWrap.item (w.loaned[i].markAsInvalid) =
        (w.loaned.map ItemWrap.item)[i] := by
      simp [ItemWrap.markAsInvalid]
    rw [hval]
    exact set_getElem_self _ _ hlt'
  unfold GoodWorld
  unfold liveItems at hnd hbd ⊢
  dsimp only at hnd hbd hgate ⊢
  rw [hmap]
  refine ⟨hwr, hnd, hbd, ?_⟩
  rcases hgate with h1 | ⟨h1, h2⟩
  · exact Or.inl h1
  · refine Or.inr ⟨?_, h2⟩
    rw [List.length_set]
    exact h1

theorem good_return {w w' : World} {outs : List ItemWrap} {i : Nat}
    (hg : GoodWorld w) (h : stepT w (.returnEv i) = some (w', outs)) :
    GoodWorld w' := by
  obtain ⟨hwr, hnd, hbd, hgate⟩ := hg
  obtain ⟨hlt, rfl, rfl⟩ := stepT_return_inv h
  have hlt' : i < (w.loaned.map ItemWrap.item).length := by simpa using hlt
  have hxi : (w.loaned.map ItemWrap.item)[i] = (w.loaned[i]).item := by simp
  have hpermL : (w.loaned.map ItemWrap.item).Perm
      ((w.loaned[i]).item :: (w.loaned.map ItemWrap.item).eraseIdx i) := by
    have hp := perm_cons_eraseIdx (w.loaned.map ItemWrap.item) i hlt'
    rwa [hxi] at hp
  have herase : (w.loaned.eraseIdx i).map ItemWrap.item =
      (w.loaned.map ItemWrap.item).eraseIdx i := map_eraseIdx _ _ _
  rw [returnItem_spec]
  unfold GoodWorld
  unfold liveItems at hnd hbd ⊢
  dsimp only at hnd hbd hgate ⊢
  rw [herase]
  refine ⟨?_, ?_, ?_, ?_⟩
  · intro x hx
    simp only [List.mem_cons] at hx
    rcases hx with rfl | hx
    · rfl
    · exact hwr x hx
  · by_cases hinv : (w.loaned[i]).invalid
    · rw [if_pos hinv]
      exact hnd.sublist (List.Sublist.append_left (List.eraseIdx_sublist _ i) _)
    · rw [if_neg hinv]
      have h1 : (w.pool.syncPoolItems ++ w.loaned.map ItemWrap.item).Perm
          (w.pool.syncPoolItems ++
            ((w.loaned[i]).item :: (w.loaned.map ItemWrap.item).eraseIdx i)) :=
        hpermL.append_left _
      have h2 := h1.trans List.perm_middle
      exact h2.nodup hnd
  · intro x hx
    simp only [List.mem_append] at hx
    rcases hx with hx | hx
    · by_cases hinv : (w.loaned[i]).invalid
      · rw [if_pos hinv] at hx
        exact hbd x (by simp [hx])
      · rw [if_neg hinv] at hx
        simp only [List.mem_cons] at hx
        rcases hx with rfl | hx
        · refine hbd _ ?_
          simp only [List.mem_append]
          exact Or.inr (List.mem_map_of_mem _ (w.loaned.getElem_mem hlt))
        · exact hbd x (by simp [hx])
    · have hxm : x ∈ w.loaned.map ItemWrap.item :=
        (List.eraseIdx_sublist _ i).mem hx
      exact hbd x (by simp only [List.mem_append]; exact Or.inr hxm)
  · rcases hgate with hnone | ⟨hsome, hpos⟩
    · exact Or.inl hnone
    · have hcond : ¬ (w.pool.semMax = none) := by rw [hsome]; simp
      have hlen : (w.loaned.eraseIdx i).length + 1 = w.loaned.length :=
        List.length_eraseIdx_add_one hlt
      refine Or.inr ⟨?_, ?_⟩
      · rw [if_neg hcond, hsome]
        apply congrArg
        omega
      · rw [if_neg hcond]
        omega

/-- Every caller action preserves the state invariant. -/
theorem stepT_good {w : World} {e : Event} {w' : World} {outs : List ItemWrap}
    (hg : GoodWorld w) (hs : stepT w e = some (w', outs)) : GoodWorld w' := by
  cases e with
  | borrowEv => exact good_borrow hg hs
  | markInvalidEv i => exact good_markInvalid hg hs
  | returnEv i => exact good_return hg hs

/-- Caller actions never change the configured gate or the counting flag. -/
theorem stepT_frame {w : World} {e : Event} {w' : World} {outs : List ItemWrap}
    (h : stepT w e = some (w', outs)) :
    w'.pool.semMax = w.pool.semMax ∧ w'.pool.enableCount = w.pool.enableCount := by
  cases e with
  | borrowEv =>
    obtain ⟨p, hb, rfl, rfl⟩ := stepT_borrow_inv h
    obtain ⟨hsm, hec, -⟩ := borrow_fields (show borrow w.pool = some (p.1, p.2) by rw [hb])
    exact ⟨hsm, hec⟩
  | markInvalidEv i =>
    obtain ⟨hlt, rfl, rfl⟩ := stepT_markInvalid_inv h
    exact ⟨rfl, rfl⟩
  | returnEv i =>
    obtain ⟨hlt, rfl, rfl⟩ := stepT_return_inv h
    rw [returnItem_spec]
    exact ⟨rfl, rfl⟩

theorem runT_cons_inv {w : World} {e : Event} {evs : List Event} {w' : World}
    {outs : List ItemWrap} (h : runT w (e :: evs) = some (w', outs)) :
    ∃ p q, stepT w e = some p ∧ runT p.1 evs = some q ∧ w' = q.1 ∧ outs = p.2 ++ q.2 := by
  simp only [runT] at h
  split at h
  · cases h
  · next p hs =>
    split at h
    · cases h
    · next q hr =>
      simp only [Option.some_inj] at h
      cases h
      exact ⟨p, q, hs, hr, rfl, rfl⟩

/-- Running any sequence of caller actions preserves the state invariant. -/
theorem runT_good : ∀ {evs : List Event} {w w' : World} {outs : List ItemWrap},
    GoodWorld w → runT w evs = some (w', outs) → GoodWorld w'
  | [], w, w', outs, hg, h => by
    simp only [runT, Option.some_inj] at h
    cases h
    exact hg
  | e :: evs, w, w', outs, hg, h => by
    obtain ⟨p, q, hs, hr, rfl, rfl⟩ := runT_cons_inv h
    exact runT_good (stepT_good hg (show stepT w e = some (p.1, p.2) by rw [hs]))
      (show runT p.1 evs = some (q.1, q.2) by rw [hr])

/-- Running any sequence of caller actions never changes the configured gate
or the counting flag. -/
theorem runT_frame : ∀ {evs : List Event} {w w' : World} {outs : List ItemWrap},
    runT w evs = some (w', outs) →
    w'.pool.semMax = w.pool.semMax ∧ w'.pool.enableCount = w.pool.enableCount
  | [], w, w', outs, h => by
    simp only [runT, Option.some_inj] at h
    cases h
    exact ⟨rfl, rfl⟩
  | e :: evs, w, w', outs, h => by
    obtain ⟨p, q, hs, hr, rfl, rfl⟩ := runT_cons_inv h
    obtain ⟨h1, h2⟩ := stepT_frame (show stepT w e = some (p.1, p.2) by rw [hs])
    obtain ⟨h3, h4⟩ := runT_frame (show runT p.1 evs = some (q.1, q.2) by rw [hr])
    exact ⟨h3.trans h1, h4.trans h2⟩

/-! Unavailable items stay unavailable: once an item id is off the free-list,
out of every outstanding handle, and below the fresh-id counter, no caller
action can ever hand it out again. -/

theorem stepT_unavail {w : World} {e : Event} {w' : World} {outs : List ItemWrap}
    {x : Nat} (h : stepT w e = some (w', outs)) (hx : ¬ itemAvailable w x) :
    ¬ itemAvailable w' x ∧ ∀ iw ∈ outs, iw.item ≠ x := by
  unfold itemAvailable at hx
  push_neg at hx
  obtain ⟨hx1, hx2, hx3⟩ := hx
  cases e with
  | borrowEv =>
    obtain ⟨p, hb, rfl, rfl⟩ := stepT_borrow_inv h
    obtain ⟨hsm, hec, hwsub, hwinv, hhp, hitem, hg0, hg1⟩ :=
      borrow_fields (show borrow w.pool = some (p.1, p.2) by rw [hb])
    have hitem_ne : p.2.item ≠ x := by
      rcases hitem with ⟨rest, hF, hF', hn⟩ | ⟨hF, hF', hfresh, hn⟩
      · intro hcontra
        exact hx1 (by rw [hF, hcontra]; exact List.mem_cons_self _ _)
      · omega
    constructor
    · unfold itemAvailable
      push_neg
      dsimp only
      refine ⟨?_, ?_, ?_⟩
      · rcases hitem with ⟨rest, hF, hF', hn⟩ | ⟨hF, hF', hfresh, hn⟩
        · rw [hF']
          intro hmem
          exact hx1 (by rw [hF]; exact List.mem_cons_of_mem _ hmem)
        · rw [hF']
          exact List.not_mem_nil x
      · simp only [List.map_append, List.map_cons, List.map_nil, List.mem_append,
          List.mem_singleton]
        rintro (hmem | rfl)
        · exact hx2 hmem
        · exact hitem_ne rfl
      · rcases hitem with ⟨rest, hF, hF', hn⟩ | ⟨hF, hF', hfresh, hn⟩
        · omega
        · omega
    · intro iw hiw
      simp only [List.mem_singleton] at hiw
      subst hiw
      exact hitem_ne
  | markInvalidEv i =>
    obtain ⟨hlt, rfl, rfl⟩ := stepT_markInvalid_inv h
    have hmap : (w.loaned.set i (w.loaned[i].markAsInvalid)).map ItemWrap.item =
        w.loaned.map ItemWrap.item := by
      rw [List.map_set]
      have hlt' : i < (w.loaned.map ItemWrap.item).length := by simpa using hlt
      have hval : ItemWrap.item (w.loaned[i].markAsInvalid) =
          (w.loaned.map ItemWrap.item)[i] := by
        simp [ItemWrap.markAsInvalid]
      rw [hval]
      exact set_getElem_self _ _ hlt'
    refine ⟨?_, by simp⟩
    unfold itemAvailable
    push_neg
    dsimp only
    rw [hmap]
    exact ⟨hx1, hx2, hx3⟩
  | returnEv i =>
    obtain ⟨hlt, rfl, rfl⟩ := stepT_return_inv h
    refine ⟨?_, by simp⟩
    unfold itemAvailable
    push_neg
    rw [returnItem_spec]
    dsimp only
    refine ⟨?_, ?_, hx3⟩
    · by_cases hinv : (w.loaned[i]).invalid
      · rw [if_pos hinv]
        exact hx1
      · rw [if_neg hinv]
        intro hmem
        simp only [List.mem_cons] at hmem
        rcases hmem with rfl | hmem
        · exact hx2 (List.mem_map_of_mem _ (w.loaned.getElem_mem hlt))
        · exact hx1 hmem
    · intro hmem
      rw [map_eraseIdx] at hmem
      exact hx2 ((List.eraseIdx_sublist _ i).mem hmem)

/-- Unavailability is preserved along whole runs, and no handle handed out
along the way carries an unavailable item. -/
theorem runT_unavail : ∀ {evs : List Event} {w w' : World} {outs : List ItemWrap}
    {x : Nat}, runT w evs = some (w', outs) → ¬ itemAvailable w x →
    ¬ itemAvailable w' x ∧ ∀ iw ∈ outs, iw.item ≠ x
  | [], w, w', outs, x, h, hx => by
    simp only [runT, Option.some_inj] at h
    cases h
    exact ⟨hx, by simp⟩
  | e :: evs, w, w', outs, x, h, hx => by
    obtain ⟨p, q, hs, hr, rfl, rfl⟩ := runT_cons_inv h
    obtain ⟨hx', hout1⟩ := stepT_unavail (show stepT w e = some (p.1, p.2) by rw [hs]) hx
    obtain ⟨hx'', hout2⟩ :=
      runT_unavail (show runT p.1 evs = some (q.1, q.2) by rw [hr]) hx'
    refine ⟨hx'', ?_⟩
    intro iw hiw
    rcases List.mem_append.mp hiw with hm | hm
    · exact hout1 iw hm
    · exact hout2 iw hm

/-! Construction: exact description of the pre-warm loops of New. -/

theorem borrow_empty_spec (s : PoolState)
    (hF : s.syncPoolItems = []) (hW : s.itemWrapPoolItems = [])
    (hgate : s.semMax = none ∨ 1 ≤ s.semAvail) :
    borrow s = some
      ({ s with
          semAvail := if s.semMax = none then s.semAvail else s.semAvail - 1
          countBorrowedOut :=
            if s.enableCount then incU32 s.countBorrowedOut else s.countBorrowedOut
          count := if s.enableCount then incU32 s.count else s.count
          nextItemId := s.nextItemId + 1 },
        (⟨s.nextItemId, false, true⟩ : ItemWrap)) := by
  cases hm : s.semMax with
  | none =>
    by_cases he : s.enableCount <;>
      simp [borrow, acquirePermit, incBorrowed, getWrap, getItem, syncPoolNew,
        hm, he, hF, hW, ItemWrap.new]
  | some M =>
    have hav : 1 ≤ s.semAvail := by
      rcases hgate with h | h
      · rw [hm] at h; cases h
      · exact h
    by_cases he : s.enableCount <;>
      simp [borrow, acquirePermit, weightedAcquire, incBorrowed, getWrap, getItem,
        syncPoolNew, hm, he, hF, hW, hav, ItemWrap.new]

theorem prewarmBorrow_spec : ∀ (k : Nat) (s : PoolState),
    s.syncPoolItems = [] → s.itemWrapPoolItems = [] →
    (s.semMax = none ∨ (k : Int) ≤ s.semAvail) →
    prewarmBorrow k s = some
      ({ s with
          semAvail := if s.semMax = none then s.semAvail else s.semAvail - k
          countBorrowedOut :=
            if s.enableCount then incU32^[k] s.countBorrowedOut
            else s.countBorrowedOut
          count := if s.enableCount then incU32^[k] s.count else s.count
          nextItemId := s.nextItemId + k },
        (List.range' s.nextItemId k).map fun x => (⟨x, false, true⟩ : ItemWrap))
  | 0, s, hF, hW, hgate => by
    obtain ⟨sm, sa, ec, cnt, cbo, fl, wl, nid⟩ := s
    simp [prewarmBorrow, List.range']
  | k + 1, s, hF, hW, hgate => by
    obtain ⟨sm, sa, ec, cnt, cbo, fl, wl, nid⟩ := s
    dsimp only at hF hW hgate ⊢
    subst hF
    subst hW
    have hgate1 : (⟨sm, sa, ec, cnt, cbo, [], [], nid⟩ : PoolState).semMax = none ∨
        1 ≤ (⟨sm, sa, ec, cnt, cbo, [], [], nid⟩ : PoolState).semAvail := by
      rcases hgate with h | h
      · exact Or.inl h
      · right; dsimp only; push_cast at h; omega
    have hb := borrow_empty_spec _ rfl rfl hgate1
    have hrec := prewarmBorrow_spec k
      (⟨sm, if sm = none then sa else sa - 1,
        ec, if ec then incU32 cnt else cnt,
        if ec then incU32 cbo else cbo, [], [], nid + 1⟩ : PoolState)
      rfl rfl
      (by
        rcases hgate with h | h
        · exact Or.inl h
        · right
          dsimp only
          cases sm with
          | none => simp only [if_pos rfl]; push_cast at h ⊢; omega
          | some M => rw [if_neg (by simp)]; push_cast at h ⊢; omega)
    simp only [prewarmBorrow]
    rw [hb]
    dsimp only
    rw [hrec]
    dsimp only
    cases sm <;> cases ec <;>
      simp [Function.iterate_succ_apply, List.range'] <;>
      first
        | rfl
        | omega

theorem returnItemsRev_spec : ∀ (ws : List ItemWrap) (s : PoolState),
    (∀ iw ∈ ws, iw.invalid = false) →
    returnItemsRev s ws =
      { s with
          syncPoolItems := ws.map ItemWrap.item ++ s.syncPoolItems
          itemWrapPoolItems :=
            List.replicate ws.length (⟨0, false, false⟩ : ItemWrap) ++
              s.itemWrapPoolItems
          countBorrowedOut :=
            if s.enableCount then decU32^[ws.length] s.countBorrowedOut
            else s.countBorrowedOut
          semAvail :=
            if s.semMax = none then s.semAvail else s.semAvail + ws.length }
  | [], s, hval => by
    obtain ⟨sm, sa, ec, cnt, cbo, fl, wl, nid⟩ := s
    simp [returnItemsRev]
  | iw :: rest, s, hval => by
    have hiw : iw.invalid = false := hval iw (List.mem_cons_self _ _)
    simp only [returnItemsRev]
    rw [returnItemsRev_spec rest s (fun x hx => hval x (List.mem_cons_of_mem _ hx))]
    rw [returnItem_spec]
    cases hm : s.semMax <;> by_cases he : s.enableCount <;>
      simp [hm, he, hiw, ItemWrap.reset, Function.iterate_succ_apply',
        List.replicate_succ] <;>
      omega

/-- Final pool state produced by New when an initial count k was recorded and
the gate (when present) admits k pre-warm borrows. -/
theorem mkPool_prewarmed (c : PoolConfig) (k : Nat) (hk : c.initial = some k)
    (hgate : c.semMax = none ∨ (k : Int) ≤ c.semMax.getD 0) :
    mkPool c = some
      { semMax := c.semMax
        semAvail := c.semMax.getD 0
        enableCount := c.enableCount
        count := if c.enableCount then incU32^[k] 0 else 0
        countBorrowedOut := if c.enableCount then decU32^[k] (incU32^[k] 0) else 0
        syncPoolItems := List.range k
        itemWrapPoolItems := List.replicate k (⟨0, false, false⟩ : ItemWrap)
        nextItemId := k } := by
  obtain ⟨csm, cinit, cec⟩ := c
  dsimp only at hk hgate ⊢
  subst hk
  have hst := prewarmBorrow_spec k (initState ⟨csm, some k, cec⟩) rfl rfl
    (by simpa [initState] using hgate)
  have hret := returnItemsRev_spec
    ((List.range' (initState (⟨csm, some k, cec⟩ : PoolConfig)).nextItemId k).map
      fun x => (⟨x, false, true⟩ : ItemWrap))
    ({ initState (⟨csm, some k, cec⟩ : PoolConfig) with
        semAvail :=
          if (initState (⟨csm, some k, cec⟩ : PoolConfig)).semMax = none
          then (initState (⟨csm, some k, cec⟩ : PoolConfig)).semAvail
          else (initState (⟨csm, some k, cec⟩ : PoolConfig)).semAvail - k
        countBorrowedOut :=
          if (initState (⟨csm, some k, cec⟩ : PoolConfig)).enableCount
          then incU32^[k] (initState (⟨csm, some k, cec⟩ : PoolConfig)).countBorrowedOut
          else (initState (⟨csm, some k, cec⟩ : PoolConfig)).countBorrowedOut
        count :=
          if (initState (⟨csm, some k, cec⟩ : PoolConfig)).enableCount
          then incU32^[k] (initState (⟨csm, some k, cec⟩ : PoolConfig)).count
          else (initState (⟨csm, some k, cec⟩ : PoolConfig)).count
        nextItemId := (initState (⟨csm, some k, cec⟩ : PoolConfig)).nextItemId + k })
    (by
      intro x hx
      simp only [List.mem_map] at hx
      obtain ⟨y, _, rfl⟩ := hx
      rfl)
  unfold mkPool
  dsimp only
  rw [hst]
  dsimp only
  rw [hret]
  unfold initState
  dsimp only
  cases csm <;> cases cec <;>
    simp [List.range_eq_range', Function.comp_def]

theorem incU32_iterate : ∀ (k n : Nat), n + k < u32 → incU32^[k] n = n + k
  | 0, n, _ => rfl
  | k + 1, n, h => by
    rw [Function.iterate_succ_apply]
    have h1 : incU32 n = n + 1 := by unfold incU32 u32 at *; omega
    rw [h1, incU32_iterate k (n + 1) (by omega)]
    omega

theorem decU32_iterate : ∀ (k n : Nat), k ≤ n → n < u32 → decU32^[k] n = n - k
  | 0, n, _, _ => rfl
  | k + 1, n, hk, hu => by
    rw [Function.iterate_succ_apply]
    have h1 : decU32 n = n - 1 := by unfold decU32 u32 at *; omega
    rw [h1, decU32_iterate k (n - 1) (by omega) (by unfold u32 at *; omega)]
    omega

theorem mkPool_initState (c : PoolConfig) (h : c.initial = none) :
    mkPool c = some (initState c) := by
  unfold mkPool
  rw [h]

theorem initState_props (c : PoolConfig) :
    (initState c).semMax = c.semMax ∧
    (∀ M, c.semMax = some M → (initState c).semAvail = M) ∧
    (initState c).syncPoolItems.Nodup ∧
    (∀ x ∈ (initState c).syncPoolItems, x < (initState c).nextItemId) ∧
    (∀ iw ∈ (initState c).itemWrapPoolItems, iw.invalid = false) := by
  refine ⟨rfl, ?_, by simp [initState], by simp [initState], by simp [initState]⟩
  intro M hM
  simp [initState, hM]

theorem prewarmed_props (csm : Option Int) (k : Nat) (ec : Bool)
    (hgate : csm = none ∨ (k : Int) ≤ csm.getD 0) (st : PoolState)
    (hp : mkPool ⟨csm, some k, ec⟩ = some st) :
    st.semMax = csm ∧ (∀ M, csm = some M → st.semAvail = M) ∧
    st.syncPoolItems.Nodup ∧ (∀ x ∈ st.syncPoolItems, x < st.nextItemId) ∧
    (∀ iw ∈ st.itemWrapPoolItems, iw.invalid = false) := by
  rw [mkPool_prewarmed ⟨csm, some k, ec⟩ k rfl hgate] at hp
  simp only [Option.some_inj] at hp
  subst hp
  refine ⟨rfl, ?_, by simp [List.nodup_range], ?_, ?_⟩
  · intro M hM
    simp [hM]
  · intro x hx
    simpa [List.mem_range] using hx
  · intro iw hiw
    rw [List.eq_of_mem_replicate hiw]

/-- Field description of every pool state New can return: gate and permits as
configured, initially distinct free items below the fresh-id counter, reset
recycled wrappers. -/
theorem newPool_state (o : PoolOpts) (c : PoolConfig) (st : PoolState)
    (hc : newConfig o = .ok c) (hp : mkPool c = some st) :
    st.semMax = c.semMax ∧
    (∀ M, c.semMax = some M → st.semAvail = M) ∧
    st.syncPoolItems.Nodup ∧
    (∀ x ∈ st.syncPoolItems, x < st.nextItemId) ∧
    (∀ iw ∈ st.itemWrapPoolItems, iw.invalid = false) := by
  cases o with
  | noOpts =>
    simp only [newConfig, Except.ok.injEq] at hc
    subst hc
    rw [mkPool_initState _ rfl] at hp
    simp only [Option.some_inj] at hp
    subst hp
    exact initState_props _
  | intMax m =>
    simp only [newConfig, Except.ok.injEq] at hc
    subst hc
    rw [mkPool_initState _ rfl] at hp
    simp only [Option.some_inj] at hp
    subst hp
    exact initState_props _
  | uint32Max m =>
    simp only [newConfig, Except.ok.injEq] at hc
    subst hc
    rw [mkPool_initState _ rfl] at hp
    simp only [Option.some_inj] at hp
    subst hp
    exact initState_props _
  | int64Max m =>
    simp only [newConfig, Except.ok.injEq] at hc
    subst hc
    rw [mkPool_initState _ rfl] at hp
    simp only [Option.some_inj] at hp
    subst hp
    exact initState_props _
  | optionsCfg i m ec =>
    simp only [newConfig] at hc
    split at hc
    · next hm =>
      split at hc
      · cases hc
      · next him =>
        simp only [Except.ok.injEq] at hc
        subst hc
        by_cases hi : i > 0
        · rw [if_pos hi] at hp
          exact prewarmed_props (some (m : Int)) i ec
            (Or.inr (by simp only [Option.getD]; omega)) st hp
        · rw [if_neg hi] at hp
          rw [mkPool_initState _ rfl] at hp
          simp only [Option.some_inj] at hp
          subst hp
          exact initState_props _
    · next hm =>
      simp only [Except.ok.injEq] at hc
      subst hc
      by_cases hi : i > 0
      · rw [if_pos hi] at hp
        exact prewarmed_props none i ec (Or.inl rfl) st hp
      · rw [if_neg hi] at hp
        rw [mkPool_initState _ rfl] at hp
        simp only [Option.some_inj] at hp
        subst hp
        exact initState_props _
  | otherType => cases hc

/-! Further helper lemmas used by the claim theorems. -/

theorem run_eq_some {w : World} {evs : List Event} {w' : World}
    (h : run w evs = some w') : ∃ outs, runT w evs = some (w', outs) := by
  unfold run at h
  cases hr : runT w evs with
  | none => rw [hr] at h; cases h
  | some q =>
    obtain ⟨q1, q2⟩ := q
    rw [hr] at h
    simp only [Option.map_some'] at h
    cases h
    exact ⟨q2, rfl⟩

theorem borrowFactoryPanics_spec (s : PoolState) (hF : s.syncPoolItems = [])
    (hgate : s.semMax = none ∨ 1 ≤ s.semAvail) :
    borrowFactoryPanics s = some (.error
      { s with
          semAvail := if s.semMax = none then s.semAvail else s.semAvail - 1
          countBorrowedOut :=
            if s.enableCount then incU32 s.countBorrowedOut else s.countBorrowedOut
          itemWrapPoolItems := s.itemWrapPoolItems.tail }) := by
  obtain ⟨sm, sa, ec, cnt, cbo, fl, wl, nid⟩ := s
  dsimp only at hF hgate ⊢
  subst hF
  cases sm with
  | none =>
    cases wl <;> cases ec <;>
      simp [borrowFactoryPanics, acquirePermit, incBorrowed, getWrap,
        List.tail_nil, List.tail_cons]
  | some M =>
    have hav : 1 ≤ sa := by
      rcases hgate with h | h
      · cases h
      · exact h
    cases wl <;> cases ec <;>
      simp [borrowFactoryPanics, acquirePermit, weightedAcquire, incBorrowed,
        getWrap, List.tail_nil, List.tail_cons, hav]

theorem stepT_borrow_noGate (w : World) (hm : w.pool.semMax = none) :
    stepT w .borrowEv = some
      (⟨(getItem (getWrap (incBorrowed w.pool)).1).1,
        w.loaned ++ [{ (getWrap (incBorrowed w.pool)).2 with
          item := (getItem (getWrap (incBorrowed w.pool)).1).2, hasPool := true }]⟩,
       [{ (getWrap (incBorrowed w.pool)).2 with
          item := (getItem (getWrap (incBorrowed w.pool)).1).2, hasPool := true }]) := by
  have hb := borrow_some_of_acquire (acquirePermit_noGate hm)
  simp only [stepT, hb]

theorem borrow_unbounded_noGate : ∀ (n : Nat) (w : World),
    w.pool.semMax = none →
    ∃ w', run w (List.replicate n .borrowEv) = some w' ∧
      w'.loaned.length = w.loaned.length + n
  | 0, w, hm => ⟨w, by simp [run, runT], by simp⟩
  | n + 1, w, hm => by
    have hb := stepT_borrow_noGate w hm
    have hm' : (⟨(getItem (getWrap (incBorrowed w.pool)).1).1,
        w.loaned ++ [{ (getWrap (incBorrowed w.pool)).2 with
          item := (getItem (getWrap (incBorrowed w.pool)).1).2,
          hasPool := true }]⟩ : World).pool.semMax = none := by
      have := (stepT_frame hb).1
      rw [this]
      exact hm
    obtain ⟨w', hrun, hlen⟩ := borrow_unbounded_noGate n _ hm'
    refine ⟨w', ?_, ?_⟩
    · unfold run at hrun ⊢
      simp only [List.replicate_succ, runT, hb]
      cases hq : runT _ (List.replicate n .borrowEv) with
      | none => rw [hq] at hrun; cases hrun
      | some q =>
        rw [hq] at hrun
        simpa using hrun
    · simp only [List.length_append, List.length_cons, List.length_nil] at hlen
      omega

theorem borrow_blocked_of_zero_gate {w : World} (hg : GoodWorld w)
    (hm : w.pool.semMax = some 0) : stepT w .borrowEv = none := by
  obtain ⟨-, -, -, hgate⟩ := hg
  rcases hgate with hnone | ⟨hsome, hpos⟩
  · rw [hm] at hnone; cases hnone
  · rw [hm] at hsome
    injection hsome with h'
    have hlt : w.pool.semAvail < 1 := by
      have hc : (0 : Int) ≤ (w.loaned.length : Int) := by positivity
      omega
    have hb : borrow w.pool = none := borrow_none_iff.mpr (acquirePermit_blocked hm hlt)
    simp only [stepT, hb]

/-! The claim theorems. -/

/-- C5: for every pool state, Count() returns liveCount minus borrowedCount
when liveCount exceeds borrowedCount, 0 when it does not, and 0 whenever
counting was not enabled at construction. -/
theorem c5_count_formula (s : PoolState) :
    (s.enableCount = false → Count s = 0) ∧
    (s.enableCount = true → s.countBorrowedOut < s.count →
      Count s = s.count - s.countBorrowedOut) ∧
    (s.enableCount = true → s.count ≤ s.countBorrowedOut → Count s = 0) := by
  refine ⟨?_, ?_, ?_⟩
  · intro h
    simp [Count, h]
  · intro h1 h2
    simp [Count, h1, h2]
  · intro h1 h2
    unfold Count
    rw [h1]
    simp only [Bool.not_true, Bool.false_eq_true, if_false]
    rw [if_neg (by omega)]

/-- C5 witness: with counting on, five live items and two on loan, Count
returns three; with counting off it returns zero. -/
theorem c5_count_formula_witness :
    Count ⟨none, 0, true, 5, 2, [], [], 0⟩ = 3 ∧
    Count ⟨none, 0, false, 5, 2, [], [], 0⟩ = 0 :=
  ⟨(c5_count_formula ⟨none, 0, true, 5, 2, [], [], 0⟩).2.1 rfl (by decide),
   (c5_count_formula ⟨none, 0, false, 5, 2, [], [], 0⟩).1 rfl⟩

/-- C6: MarkAsInvalid sets the handle's invalid flag to true and changes
nothing else: the handle's item and pool back reference are untouched, and
as a caller action it leaves the entire pool state (free-lists, counters,
admission gate) unchanged and hands nothing out. -/
theorem c6_markAsInvalid_flag_only :
    (∀ iw : ItemWrap, iw.markAsInvalid.invalid = true ∧
      iw.markAsInvalid.item = iw.item ∧ iw.markAsInvalid.hasPool = iw.hasPool) ∧
    (∀ (w : World) (i : Nat) (w' : World) (outs : List ItemWrap),
      stepT w (.markInvalidEv i) = some (w', outs) →
      w'.pool = w.pool ∧
      w'.loaned.map ItemWrap.item = w.loaned.map ItemWrap.item ∧
      w'.loaned.map ItemWrap.hasPool = w.loaned.map ItemWrap.hasPool ∧
      w'.loaned.length = w.loaned.length ∧ outs = []) := by
  constructor
  · intro iw
    exact ⟨rfl, rfl, rfl⟩
  · intro w i w' outs h
    obtain ⟨hlt, rfl, rfl⟩ := stepT_markInvalid_inv h
    have hlt' : i < (w.loaned.map ItemWrap.item).length := by simpa using hlt
    have hlt'' : i < (w.loaned.map ItemWrap.hasPool).length := by simpa using hlt
    refine ⟨rfl, ?_, ?_, by simp [List.length_set], rfl⟩
    · rw [List.map_set]
      have hv : ItemWrap.item (w.loaned[i].markAsInvalid) =
          (w.loaned.map ItemWrap.item)[i] := by
        simp [ItemWrap.markAsInvalid]
      rw [hv]
      exact set_getElem_self _ _ hlt'
    · rw [List.map_set]
      have hv : ItemWrap.hasPool (w.loaned[i].markAsInvalid) =
          (w.loaned.map ItemWrap.hasPool)[i] := by
        simp [ItemWrap.markAsInvalid]
      rw [hv]
      exact set_getElem_self _ _ hlt''

/-- C6 witness: marking the only outstanding handle of a concrete pool
leaves the pool state and the handle's item and back reference unchanged. -/
theorem c6_markAsInvalid_flag_only_witness :
    (({ item := 7, invalid := false, hasPool := true } : ItemWrap).markAsInvalid.invalid
      = true) ∧
    ((⟨⟨some 1, 0, true, 1, 1, [], [], 1⟩,
        [⟨0, true, true⟩]⟩ : World).pool = (⟨some 1, 0, true, 1, 1, [], [], 1⟩ : PoolState)) :=
  ⟨(c6_markAsInvalid_flag_only.1 ⟨7, false, true⟩).1,
   (c6_markAsInvalid_flag_only.2 ⟨⟨some 1, 0, true, 1, 1, [], [], 1⟩, [⟨0, false, true⟩]⟩
      0 ⟨⟨some 1, 0, true, 1, 1, [], [], 1⟩, [⟨0, true, true⟩]⟩ [] (by decide)).1⟩

/-- C7: construction fails with a configuration panic exactly when the opts
value is of an unsupported type, or it is an Options value whose Max is
nonzero and whose Initial exceeds it; in particular initial ≤ max succeeds,
and initial set with max absent succeeds. -/
theorem c7_construction_failure (o : PoolOpts) :
    (∃ e, newConfig o = .error e) ↔
      (o = .otherType ∨ ∃ i m ec, o = .optionsCfg i m ec ∧ m ≠ 0 ∧ m < i) := by
  cases o with
  | noOpts => simp [newConfig]
  | intMax m => simp [newConfig]
  | uint32Max m => simp [newConfig]
  | int64Max m => simp [newConfig]
  | optionsCfg i m ec =>
    constructor
    · rintro ⟨e, he⟩
      simp only [newConfig] at he
      split at he
      · next hm =>
        split at he
        · next him => exact Or.inr ⟨i, m, ec, rfl, hm, by omega⟩
        · cases he
      · cases he
    · rintro (h | ⟨i2, m2, ec2, heq, hm, him⟩)
      · cases h
      · injection heq with h1 h2 h3
        subst h1
        subst h2
        subst h3
        refine ⟨.initialExceedsMax, ?_⟩
        simp only [newConfig, if_pos hm]
        rw [if_pos (by omega)]
  | otherType =>
    constructor
    · intro _
      exact Or.inl rfl
    · intro _
      exact ⟨.optsWrongType, rfl⟩

/-- C7 witness: the malformed-opts case of the characterization evaluated
at the wrong-type constructor. -/
theorem c7_construction_failure_witness :
    ∃ e, newConfig .otherType = .error e :=
  (c7_construction_failure .otherType).mpr (Or.inl rfl)

/-- C9 counterexample: the claim says Borrow's blocking wait accepts a
cancellation context; the context borrow actually hands to the semaphore
Acquire call is context.Background(), which is not cancellable. -/
theorem c9_counterexample : ¬ (borrowAcquireContext.isCancellable = true) := by
  decide

/-- C9 (amended): Borrow hard-codes the background context in the gate's
Acquire call; that context is neither cancellable nor ever cancelled, so the
acquire can never return the cancellation error and the wait cannot be
cancelled. -/
theorem c9_background_context :
    borrowAcquireContext = GoContext.background ∧
    borrowAcquireContext.isCancellable = false ∧
    borrowAcquireContext.isCancelled = false ∧
    ∀ avail : Int, weightedAcquire borrowAcquireContext avail ≠ .ctxErr := by
  refine ⟨rfl, rfl, rfl, ?_⟩
  intro avail
  unfold weightedAcquire
  by_cases h : 1 ≤ avail
  · simp [h]
  · simp [h, borrowAcquireContext, GoContext.isCancelled]

/-- C9 witness: the amended description evaluated at zero available
permits: Acquire with the background context does not report cancellation. -/
theorem c9_background_context_witness :
    weightedAcquire borrowAcquireContext 0 ≠ .ctxErr :=
  c9_background_context.2.2.2 0

/-- C8 counterexample: with gate weight 2, one free permit consumed and
counting on, a Borrow whose factory panics leaves the pool with the permit
still consumed and the borrowed counter still incremented — not in the
state from before the borrow started. -/
theorem c8_counterexample :
    borrowFactoryPanics ⟨some 2, 2, true, 0, 0, [], [], 0⟩ =
      some (.error ⟨some 2, 1, true, 0, 1, [], [], 0⟩) ∧
    (⟨some 2, 1, true, 0, 1, [], [], 0⟩ : PoolState) ≠
      (⟨some 2, 2, true, 0, 0, [], [], 0⟩ : PoolState) := by
  constructor
  · rfl
  · decide

/-- C8 (amended): when the factory panics during a Borrow that got past the
gate, the panic propagates as-is and the pool is NOT restored: the permit
stays consumed, countBorrowedOut stays incremented and the popped wrapper is
lost, while the item free-list, live count and factory-call counter are as
before. -/
theorem c8_factory_panic_state (s : PoolState) (hF : s.syncPoolItems = [])
    (hgate : s.semMax = none ∨ 1 ≤ s.semAvail) :
    ∃ sp, borrowFactoryPanics s = some (.error sp) ∧
      sp.semMax = s.semMax ∧
      (s.semMax = none → sp.semAvail = s.semAvail) ∧
      (∀ M, s.semMax = some M → sp.semAvail = s.semAvail - 1) ∧
      (s.enableCount = true → sp.countBorrowedOut = incU32 s.countBorrowedOut) ∧
      (s.enableCount = false → sp.countBorrowedOut = s.countBorrowedOut) ∧
      sp.count = s.count ∧ sp.nextItemId = s.nextItemId ∧
      sp.syncPoolItems = s.syncPoolItems ∧
      sp.itemWrapPoolItems = s.itemWrapPoolItems.tail := by
  refine ⟨_, borrowFactoryPanics_spec s hF hgate, rfl, ?_, ?_, ?_, ?_, rfl, rfl, hF ▸ rfl, rfl⟩
  · intro hm
    dsimp only
    rw [if_pos hm]
  · intro M hm
    dsimp only
    rw [if_neg (by rw [hm]; simp)]
  · intro he
    dsimp only
    rw [if_pos he]
  · intro he
    dsimp only
    rw [if_neg (by rw [he]; simp)]

/-- C8 witness: the amended description evaluated on a concrete pool with a
weight-2 gate, counting on and an empty free-list. -/
theorem c8_factory_panic_state_witness :
    ∃ sp, borrowFactoryPanics ⟨some 2, 2, true, 0, 0, [], [], 0⟩ =
        some (.error sp) ∧
      sp.semMax = (⟨some 2, 2, true, 0, 0, [], [], 0⟩ : PoolState).semMax ∧
      ((⟨some 2, 2, true, 0, 0, [], [], 0⟩ : PoolState).semMax = none →
        sp.semAvail = 2) ∧
      (∀ M, (⟨some 2, 2, true, 0, 0, [], [], 0⟩ : PoolState).semMax = some M →
        sp.semAvail = 2 - 1) ∧
      (true = true → sp.countBorrowedOut = incU32 0) ∧
      (true = false → sp.countBorrowedOut = 0) ∧
      sp.count = 0 ∧ sp.nextItemId = 0 ∧ sp.syncPoolItems = [] ∧
      sp.itemWrapPoolItems = List.tail [] :=
  c8_factory_panic_state ⟨some 2, 2, true, 0, 0, [], [], 0⟩ rfl (Or.inr (by decide))

/-- C10: the two zero-max spellings are asymmetric.  New with a bare int 0
installs an admission gate of weight 0, so after any sequence of caller
actions the next Borrow still blocks; New with an Options value whose Max is
0 installs no gate at all, so Borrow always completes and the number of
outstanding handles grows without bound. -/
theorem c10_zero_max_asymmetry :
    newPool (.intMax 0) = .ok (some (initState ⟨some (0 : Int), none, false⟩)) ∧
    (initState ⟨some (0 : Int), none, false⟩).semMax = some 0 ∧
    (∀ evs w, run ⟨initState ⟨some (0 : Int), none, false⟩, []⟩ evs = some w →
      stepT w .borrowEv = none) ∧
    (∀ i ec c, newConfig (.optionsCfg i 0 ec) = .ok c → c.semMax = none) ∧
    (∀ w : World, w.pool.semMax = none → ∃ p, stepT w .borrowEv = some p) ∧
    newPool (.optionsCfg 0 0 false) = .ok (some (initState ⟨none, none, false⟩)) ∧
    (∀ n, ∃ w, run ⟨initState ⟨none, none, false⟩, []⟩
        (List.replicate n .borrowEv) = some w ∧ w.loaned.length = n) := by
  refine ⟨rfl, rfl, ?_, ?_, ?_, rfl, ?_⟩
  · intro evs w hr
    obtain ⟨outs, hrt⟩ := run_eq_some hr
    have hg : GoodWorld ⟨initState ⟨some (0 : Int), none, false⟩, []⟩ := by decide
    have hgw := runT_good hg hrt
    have hsm : w.pool.semMax = some 0 := by
      rw [(runT_frame hrt).1]
      rfl
    exact borrow_blocked_of_zero_gate hgw hsm
  · intro i ec c hc
    simp only [newConfig] at hc
    rw [if_neg (by simp)] at hc
    simp only [Except.ok.injEq] at hc
    subst hc
    rfl
  · intro w hm
    exact ⟨_, stepT_borrow_noGate w hm⟩
  · intro n
    obtain ⟨w', hrun, hlen⟩ :=
      borrow_unbounded_noGate n ⟨initState ⟨none, none, false⟩, []⟩ rfl
    exact ⟨w', hrun, by simpa using hlen⟩

/-- C10 witness: on the weight-0 pool the very first Borrow already blocks;
on the gate-less pool three Borrows all complete, leaving three handles on
loan. -/
theorem c10_zero_max_asymmetry_witness :
    stepT ⟨initState ⟨some (0 : Int), none, false⟩, []⟩ .borrowEv = none ∧
    (∃ w, run ⟨initState ⟨none, none, false⟩, []⟩
        (List.replicate 3 .borrowEv) = some w ∧ w.loaned.length = 3) :=
  ⟨c10_zero_max_asymmetry.2.2.1 [] ⟨initState ⟨some (0 : Int), none, false⟩, []⟩ rfl,
   c10_zero_max_asymmetry.2.2.2.2.2.2 3⟩

/-- C4: every handle a completed borrow returns has its item populated
(popped from the item free-list when non-empty, else freshly produced by the
factory), its pool back reference set and its invalid flag clear (recycled
wrappers were reset on return), and borrow factors as: acquire a permit,
then increment the borrowed counter, then fetch a wrapper, then fetch the
item. -/
theorem c4_borrow_handle (s s' : PoolState) (iw : ItemWrap)
    (hwr : ∀ x ∈ s.itemWrapPoolItems, x.invalid = false)
    (hb : borrow s = some (s', iw)) :
    iw.invalid = false ∧ iw.hasPool = true ∧
    iw.item = (match s.syncPoolItems with | x :: _ => x | [] => s.nextItemId) ∧
    ∃ s1, acquirePermit s = some s1 ∧
      s' = (getItem (getWrap (incBorrowed s1)).1).1 ∧
      iw = { (getWrap (incBorrowed s1)).2 with
             item := (getItem (getWrap (incBorrowed s1)).1).2, hasPool := true } := by
  obtain ⟨hsm, hec, hwsub, hwinv, hhp, hitem, hg0, hg1⟩ := borrow_fields hb
  refine ⟨?_, hhp, ?_, borrow_eq_some hb⟩
  · by_cases hinv : iw.invalid = true
    · obtain ⟨x, hx, hxinv⟩ := hwinv hinv
      rw [hwr x hx] at hxinv
      cases hxinv
    · simpa using hinv
  · rcases hitem with ⟨rest, hF, -, -⟩ | ⟨hF, -, hfresh, -⟩
    · simp [hF]
    · simp [hF, hfresh]

/-- C4 witness: borrowing from a concrete gate-less pool whose free-list
holds item 5 yields a valid handle wrapping item 5 with the back reference
set. -/
theorem c4_borrow_handle_witness :
    (⟨5, false, true⟩ : ItemWrap).invalid = false ∧
    (⟨5, false, true⟩ : ItemWrap).hasPool = true ∧
    (⟨5, false, true⟩ : ItemWrap).item =
      (match (⟨none, 0, false, 0, 0, [5], [⟨0, false, false⟩], 7⟩ :
          PoolState).syncPoolItems with
        | x :: _ => x
        | [] => (⟨none, 0, false, 0, 0, [5], [⟨0, false, false⟩], 7⟩ :
            PoolState).nextItemId) ∧
    ∃ s1, acquirePermit ⟨none, 0, false, 0, 0, [5], [⟨0, false, false⟩], 7⟩ = some s1 ∧
      (⟨none, 0, false, 0, 0, [], [], 7⟩ : PoolState) =
        (getItem (getWrap (incBorrowed s1)).1).1 ∧
      (⟨5, false, true⟩ : ItemWrap) = { (getWrap (incBorrowed s1)).2 with
        item := (getItem (getWrap (incBorrowed s1)).1).2, hasPool := true } :=
  c4_borrow_handle ⟨none, 0, false, 0, 0, [5], [⟨0, false, false⟩], 7⟩
    ⟨none, 0, false, 0, 0, [], [], 7⟩ ⟨5, false, true⟩ (by decide) rfl

/-- C1: for every pool New constructs with an admission gate of nonnegative
weight M, after any sequence of Borrow, MarkAsInvalid and Return actions the
number of handles borrowed and not yet returned never exceeds M. -/
theorem c1_bounded_outstanding (o : PoolOpts) (c : PoolConfig) (st : PoolState)
    (M : Int) (evs : List Event) (w : World)
    (hc : newConfig o = .ok c) (hp : mkPool c = some st)
    (hM : st.semMax = some M) (h0 : 0 ≤ M)
    (hr : run ⟨st, []⟩ evs = some w) :
    (w.loaned.length : Int) ≤ M := by
  obtain ⟨hsm, hsa, hnd, hbd, hwr⟩ := newPool_state o c st hc hp
  have hsaM : st.semAvail = M := hsa M (by rw [← hsm]; exact hM)
  have hg0 : GoodWorld ⟨st, []⟩ := by
    refine ⟨hwr, ?_, ?_, Or.inr ⟨?_, ?_⟩⟩
    · unfold liveItems
      simpa using hnd
    · unfold liveItems
      intro x hx
      exact hbd x (by simpa using hx)
    · dsimp only
      rw [hM, hsaM]
      simp
    · dsimp only
      rw [hsaM]
      exact h0
  obtain ⟨outs, hrt⟩ := run_eq_some hr
  obtain ⟨-, -, -, hgate⟩ := runT_good hg0 hrt
  have hfr := (runT_frame hrt).1
  rcases hgate with hnone | ⟨hsome, hpos⟩
  · rw [hfr] at hnone
    rw [hM] at hnone
    cases hnone
  · rw [hfr] at hsome
    rw [hM] at hsome
    injection hsome with h2
    omega

/-- C1 witness: a pool built with a bare int max of 2; after two Borrows the
two outstanding handles do not exceed the weight 2. -/
theorem c1_bounded_outstanding_witness :
    newConfig (.intMax 2) = .ok ⟨some 2, none, false⟩ ∧
    mkPool ⟨some 2, none, false⟩ = some (initState ⟨some 2, none, false⟩) ∧
    ((⟨⟨some 2, 0, false, 0, 0, [], [], 2⟩,
        [⟨0, false, true⟩, ⟨1, false, true⟩]⟩ : World).loaned.length : Int) ≤ 2 :=
  ⟨rfl, rfl,
    c1_bounded_outstanding (.intMax 2) ⟨some 2, none, false⟩
      (initState ⟨some 2, none, false⟩) 2 [.borrowEv, .borrowEv]
      ⟨⟨some 2, 0, false, 0, 0, [], [], 2⟩, [⟨0, false, true⟩, ⟨1, false, true⟩]⟩
      rfl rfl rfl (by decide) (by decide)⟩

/-- C2: returning a valid handle pushes its item back onto the item
free-list; returning an invalidated handle leaves the free-list unchanged
and retains the item nowhere, so in every continuation of a well-formed
world no later Borrow ever hands that item out again. -/
theorem c2_invalidate_drops :
    (∀ (s : PoolState) (iw : ItemWrap), iw.invalid = false →
      (returnItem s iw).syncPoolItems = iw.item :: s.syncPoolItems) ∧
    (∀ (s : PoolState) (iw : ItemWrap), iw.invalid = true →
      (returnItem s iw).syncPoolItems = s.syncPoolItems) ∧
    (∀ (w : World) (i : Nat) (hlt : i < w.loaned.length) (w1 w2 : World)
      (outs : List ItemWrap) (evs : List Event),
      GoodWorld w → (w.loaned[i]).invalid = true →
      step w (.returnEv i) = some w1 →
      runT w1 evs = some (w2, outs) →
      ∀ iw ∈ outs, iw.item ≠ (w.loaned[i]).item) := by
  refine ⟨?_, ?_, ?_⟩
  · intro s iw hv
    rw [returnItem_spec]
    dsimp only
    rw [if_neg (by rw [hv]; simp)]
  · intro s iw hv
    rw [returnItem_spec]
    dsimp only
    rw [if_pos hv]
  · intro w i hlt w1 w2 outs evs hg hinv hstep hrun iw hiw
    unfold step at hstep
    cases hs : stepT w (.returnEv i) with
    | none => rw [hs] at hstep; cases hstep
    | some p =>
      obtain ⟨p1, p2⟩ := p
      rw [hs] at hstep
      simp only [Option.map_some'] at hstep
      obtain ⟨hlt2, hp, -⟩ := stepT_return_inv hs
      cases hstep
      rw [hp] at hrun
      obtain ⟨-, hnd, hbd, -⟩ := hg
      have hxL : (w.loaned[i]).item ∈ w.loaned.map ItemWrap.item :=
        List.mem_map_of_mem _ (w.loaned.getElem_mem hlt)
      have hndsplit := List.nodup_append.mp (show (w.pool.syncPoolItems ++
          w.loaned.map ItemWrap.item).Nodup from hnd)
      have hxF : (w.loaned[i]).item ∉ w.pool.syncPoolItems :=
        fun hmem => hndsplit.2.2 hmem hxL
      have hxE : (w.loaned[i]).item ∉ (w.loaned.eraseIdx i).map ItemWrap.item := by
        rw [map_eraseIdx]
        have hlt3 : i < (w.loaned.map ItemWrap.item).length := by simpa using hlt
        have hperm := perm_cons_eraseIdx (w.loaned.map ItemWrap.item) i hlt3
        have hndc := hperm.nodup hndsplit.2.1
        rw [show (w.loaned.map ItemWrap.item)[i] = (w.loaned[i]).item from by simp]
          at hndc
        exact (List.nodup_cons.mp hndc).1
      have hxN : (w.loaned[i]).item < w.pool.nextItemId :=
        hbd _ (by
          unfold liveItems
          simp only [List.mem_append]
          exact Or.inr hxL)
      have hunav : ¬ itemAvailable
          ⟨returnItem w.pool (w.loaned[i]), w.loaned.eraseIdx i⟩
          ((w.loaned[i]).item) := by
        unfold itemAvailable
        push_neg
        rw [returnItem_spec]
        dsimp only
        rw [if_pos hinv]
        exact ⟨hxF, hxE, by omega⟩
      exact (runT_unavail hrun hunav).2 iw hiw

/-- C2 witness: a world with one invalidated outstanding handle wrapping
item 0; after returning it, the next Borrow invokes the factory and yields
item 1, not the discarded item 0. -/
theorem c2_invalidate_drops_witness : (⟨1, false, true⟩ : ItemWrap).item ≠ 0 :=
  c2_invalidate_drops.2.2
    ⟨⟨none, 0, false, 0, 0, [], [], 1⟩, [⟨0, true, true⟩]⟩ 0 (by decide)
    ⟨⟨none, 0, false, 0, 0, [], [⟨0, false, false⟩], 1⟩, []⟩
    ⟨⟨none, 0, false, 0, 0, [], [], 2⟩, [⟨1, false, true⟩]⟩
    [⟨1, false, true⟩] [.borrowEv] (by decide) (by decide) (by decide) (by decide)
    ⟨1, false, true⟩ (by decide)

/-- C3: constructing with initial = k and max = m (0 < k ≤ m, k a uint32
value) succeeds, invokes the factory exactly k times (the free-list starts
empty, so each pre-warm borrow constructs a fresh item), and returns them
all before the constructor finishes: afterwards OnLoan() is 0, the borrowed
counter is 0, and the free-list holds exactly the k items. -/
theorem c3_prewarm (k m : Nat) (ec : Bool) (hk : 0 < k) (hkm : k ≤ m)
    (hku : k < u32) :
    ∃ st, newPool (.optionsCfg k m ec) = .ok (some st) ∧
      st.nextItemId = k ∧
      OnLoan st = 0 ∧
      st.countBorrowedOut = 0 ∧
      st.syncPoolItems = List.range k ∧
      st.syncPoolItems.length = k := by
  have hm0 : m ≠ 0 := by omega
  have hcfg : newConfig (.optionsCfg k m ec) =
      .ok ⟨some (m : Int), some k, ec⟩ := by
    simp only [newConfig, if_pos hm0]
    rw [if_neg (by omega), if_pos hk]
  have hmk := mkPool_prewarmed ⟨some (m : Int), some k, ec⟩ k rfl
    (Or.inr (by simp only [Option.getD]; omega))
  have hnew : newPool (.optionsCfg k m ec) =
      .ok (mkPool ⟨some (m : Int), some k, ec⟩) := by
    unfold newPool
    rw [hcfg]
    rfl
  have hc1 : incU32^[k] 0 = k := by simpa using incU32_iterate k 0 (by omega)
  have hc2 : decU32^[k] k = 0 := by
    rw [decU32_iterate k k le_rfl hku]
    omega
  refine ⟨_, by rw [hnew, hmk], rfl, ?_, ?_, rfl, by simp⟩
  · unfold OnLoan
    dsimp only
    rw [hc1, hc2]
    cases ec <;> simp
  · dsimp only
    rw [hc1, hc2]
    cases ec <;> simp

/-- C3 witness: initial = 2, max = 3 with counting on; construction yields a
pool with two factory calls made, nothing on loan, and the two items on the
free-list. -/
theorem c3_prewarm_witness :
    (0 < 2 ∧ 2 ≤ 3 ∧ 2 < u32) ∧
    ∃ st, newPool (.optionsCfg 2 3 true) = .ok (some st) ∧
      st.nextItemId = 2 ∧ OnLoan st = 0 ∧ st.countBorrowedOut = 0 ∧
      st.syncPoolItems = List.range 2 ∧ st.syncPoolItems.length = 2 :=
  ⟨⟨by decide, by decide, by decide⟩,
   c3_prewarm 2 3 true (by decide) (by decide) (by decide)⟩

end GoPool
